import Mathlib

/-!
Verification of the lock-free Treiber stack in `src/stacks/src/treiber.rs`
against its specification, in a sequential (single-threaded) shallow
embedding.

Embedding conventions:

* The singly-linked list of `Node`s reachable from the stack's `head`
  slot is modelled as a `List T` holding the `data` fields in order from
  the top: `[]` is the null head, `x :: rest` is a head node with
  `data = x` whose `next` chain holds `rest`.
* The `len : AtomicUsize` counter is modelled as a `Nat` reduced modulo
  `2 ^ 64` (a 64-bit `usize`): `fetch_add(1)` and `fetch_sub(1)` are
  wrapping, so the embedding applies the wrap explicitly.
* Methods take `&self` but may mutate through atomics, so every
  operation is embedded as explicit state passing: `pop` and `peek`
  return the result paired with the post-state; `push` returns the
  post-state.
* In a sequential execution no other thread writes the head slot
  between an operation's load of `head` and its compare-and-swap, so
  the CAS compares the loaded head against an unchanged current head.
  The fueled `pushLoop`/`popLoop` definitions keep the retry structure
  of the source; `push`/`pop` are the (provably equal) one-iteration
  unfoldings.
* Epoch pinning (`epoch::pin()`), guards and `guard.unlinked` manage
  physical memory reclamation only; they have no effect on the abstract
  stack state and are not represented.
* `T: Clone` for `peek` is modelled by returning the element value
  itself: duplication of a pure value is the identity.
-/

/-- Width of the wrapping `usize` counter: a 64-bit platform. -/
def USIZE : Nat := 2 ^ 64

/-- A lock-free stack (`Stack<T>` in `treiber.rs`): the `head` atomic
slot's reachable node chain, and the `len` counter. -/
structure Stack (T : Type) where
  head : List T
  len : Nat
deriving DecidableEq, Repr

namespace Stack

variable {T : Type}

/-- `Stack::new`: head slot null, counter zero. -/
def new : Stack T :=
  { head := [], len := 0 }

/-- `Stack::is_empty`: load head (acquire) and test for absence. -/
def is_empty (s : Stack T) : Bool :=
  s.head.isEmpty

/-- `Stack::push`, sequential one-iteration unfolding: link the new
node in front of the loaded head, CAS succeeds, `len.fetch_add(1)`
(wrapping on `usize`). -/
def push (s : Stack T) (data : T) : Stack T :=
  { head := data :: s.head, len := (s.len + 1) % USIZE }

/-- `Stack::pop`, sequential one-iteration unfolding: if head is null
return `none`; otherwise CAS head to `next`, `len.fetch_sub(1)`
(wrapping on `usize`), and return the removed node's data. -/
def pop (s : Stack T) : Option T × Stack T :=
  match s.head with
  | [] => (none, s)
  | x :: next => (some x, { head := next, len := (s.len + (USIZE - 1)) % USIZE })

/-- `Stack::peek` (for `T: Clone`): load head (acquire), map out a
clone of the top node's data; no store, CAS or counter update occurs,
so the post-state is the pre-state. -/
def peek (s : Stack T) : Option T × Stack T :=
  (s.head.head?, s)

/-- The retry loop of `Stack::push`, with explicit fuel. Each
iteration loads `head`, stores it into the new node's `next` slot, and
attempts the CAS; in the sequential embedding the current head at CAS
time is the loaded head, and on failure the loop retries reusing the
same node. -/
def pushLoop [DecidableEq T] (s : Stack T) (data : T) : Nat → Option (Stack T)
  | 0 => none
  | fuel + 1 =>
    let hd := s.head
    if s.head = hd then
      some { head := data :: hd, len := (s.len + 1) % USIZE }
    else
      pushLoop s data fuel

/-- The retry loop of `Stack::pop`, with explicit fuel. Each iteration
loads `head`; if null it returns `none`, otherwise it loads the head
node's `next` and attempts the CAS, retrying on failure. -/
def popLoop [DecidableEq T] (s : Stack T) : Nat → Option (Option T × Stack T)
  | 0 => none
  | fuel + 1 =>
    match s.head with
    | [] => some (none, s)
    | x :: next =>
      if s.head = x :: next then
        some (some x, { head := next, len := (s.len + (USIZE - 1)) % USIZE })
      else
        popLoop s fuel

/-- Push every element of `vs`, in order, onto `s`. -/
def pushList (s : Stack T) (vs : List T) : Stack T :=
  vs.foldl push s

/-- Pop `n` times, collecting the returned options in order. -/
def popN (s : Stack T) : Nat → List (Option T) × Stack T
  | 0 => ([], s)
  | n + 1 =>
    let r := s.pop
    let rs := r.2.popN n
    (r.1 :: rs.1, rs.2)

end Stack

/-- A single stack operation in a sequential trace. -/
inductive Op (T : Type) where
  | push (v : T)
  | pop
deriving DecidableEq, Repr

/-- Execute a trace of operations sequentially. -/
def runOps {T : Type} (s : Stack T) : List (Op T) → Stack T
  | [] => s
  | Op.push v :: rest => runOps (s.push v) rest
  | Op.pop :: rest => runOps (s.pop).2 rest

/-- The values delivered by the pushes of a trace, in order. -/
def pushedVals {T : Type} : List (Op T) → List T
  | [] => []
  | Op.push v :: rest => v :: pushedVals rest
  | Op.pop :: rest => pushedVals rest

/-- The values returned by the successful pops of a trace, in order. -/
def poppedVals {T : Type} (s : Stack T) : List (Op T) → List T
  | [] => []
  | Op.push v :: rest => poppedVals (s.push v) rest
  | Op.pop :: rest =>
    match s.pop with
    | (some v, s') => v :: poppedVals s' rest
    | (none, s') => poppedVals s' rest

section Lemmas

variable {T : Type}

theorem pushList_cons (s : Stack T) (v : T) (vs : List T) :
    s.pushList (v :: vs) = (s.push v).pushList vs := rfl

/-- Pushing a list prepends its reverse to the head chain. -/
theorem pushList_head (s : Stack T) (vs : List T) :
    (s.pushList vs).head = vs.reverse ++ s.head := by
  induction vs generalizing s with
  | nil => simp [Stack.pushList]
  | cons v vs ih =>
    rw [pushList_cons, ih (s.push v)]
    simp [Stack.push]

/-- Pushing a list advances the wrapped counter by its length. -/
theorem pushList_len (s : Stack T) (vs : List T) (h : s.len < USIZE) :
    (s.pushList vs).len = (s.len + vs.length) % USIZE := by
  induction vs generalizing s with
  | nil => simpa [Stack.pushList] using (Nat.mod_eq_of_lt h).symm
  | cons v vs ih =>
    rw [pushList_cons, ih (s.push v) (Nat.mod_lt _ (by simp [USIZE]))]
    show ((s.len + 1) % USIZE + vs.length) % USIZE = _
    rw [Nat.mod_add_mod]
    simp [Nat.add_assoc, Nat.add_comm, Nat.add_left_comm]

/-- The options returned by `n` pops are the first `n` chain elements
(each wrapped in `some`), provided the chain holds at least `n`. -/
theorem popN_fst (s : Stack T) (n : Nat) (h : n ≤ s.head.length) :
    (s.popN n).1 = (s.head.take n).map some := by
  induction n generalizing s with
  | zero => simp [Stack.popN]
  | succ n ih =>
    match hs : s.head with
    | [] => simp [hs] at h
    | x :: next =>
      have hpop : s.pop = (some x, { head := next, len := (s.len + (USIZE - 1)) % USIZE }) := by
        simp [Stack.pop, hs]
      have hn : n ≤ next.length := by
        rw [hs] at h; simp at h; omega
      simp [Stack.popN, hpop, hs, List.map_take,
        ih { head := next, len := (s.len + (USIZE - 1)) % USIZE } hn]

/-- After `n` pops the head chain has lost its first `n` elements. -/
theorem popN_snd_head (s : Stack T) (n : Nat) :
    (s.popN n).2.head = s.head.drop n := by
  induction n generalizing s with
  | zero => simp [Stack.popN]
  | succ n ih =>
    match hs : s.head with
    | [] =>
      have hpop : s.pop = (none, s) := by simp [Stack.pop, hs]
      simp [Stack.popN, hpop, ih, hs]
    | x :: next =>
      have hpop : s.pop = (some x, { head := next, len := (s.len + (USIZE - 1)) % USIZE }) := by
        simp [Stack.pop, hs]
      simp [Stack.popN, hpop, hs, ih]

/-- `n` successful pops retreat the wrapped counter by `n` in the
wrapping arithmetic of `usize`. -/
theorem popN_len (s : Stack T) (n : Nat) (h : n ≤ s.head.length) (hl : s.len < USIZE) :
    (s.popN n).2.len = (s.len + n * (USIZE - 1)) % USIZE := by
  induction n generalizing s with
  | zero => simpa [Stack.popN] using (Nat.mod_eq_of_lt hl).symm
  | succ n ih =>
    match hs : s.head with
    | [] => simp [hs] at h
    | x :: next =>
      have hpop : s.pop = (some x, { head := next, len := (s.len + (USIZE - 1)) % USIZE }) := by
        simp [Stack.pop, hs]
      have hn : n ≤ next.length := by
        rw [hs] at h; simp at h; omega
      rw [Stack.popN, hpop]
      show ((⟨next, (s.len + (USIZE - 1)) % USIZE⟩ : Stack T).popN n).2.len = _
      rw [ih { head := next, len := (s.len + (USIZE - 1)) % USIZE } hn
        (Nat.mod_lt _ (by simp [USIZE]))]
      show ((s.len + (USIZE - 1)) % USIZE + n * (USIZE - 1)) % USIZE = _
      rw [Nat.mod_add_mod, Nat.succ_mul]
      ring_nf

/-- A pop on a stack whose head slot is null returns `none` and leaves
the state untouched. -/
theorem pop_head_nil (s : Stack T) (h : s.head = []) : s.pop = (none, s) := by
  cases s with
  | mk hd l =>
    simp only at h
    subst h
    rfl

/-- Conservation invariant for an arbitrary trace run from an
arbitrary start state: the pushed values plus the initial contents are
exactly the popped values plus the final contents, as multisets. -/
theorem conservation (s : Stack T) (ops : List (Op T)) :
    (pushedVals ops : Multiset T) + (s.head : Multiset T) =
      (poppedVals s ops : Multiset T) + ((runOps s ops).head : Multiset T) := by
  induction ops generalizing s with
  | nil => simp [pushedVals, poppedVals, runOps]
  | cons op rest ih =>
    cases op with
    | push v =>
      have h := ih (s.push v)
      simp only [pushedVals, poppedVals, runOps]
      simp only [Stack.push] at h
      simp only [← Multiset.cons_coe, Multiset.cons_add, Multiset.add_cons] at h ⊢
      exact h
    | pop =>
      match hs : s.head with
      | [] =>
        have hpop : s.pop = (none, s) := pop_head_nil s hs
        simp only [pushedVals, poppedVals, runOps, hpop]
        simpa [hs] using ih s
      | x :: next =>
        have hpop : s.pop = (some x, { head := next, len := (s.len + (USIZE - 1)) % USIZE }) := by
          simp [Stack.pop, hs]
        have h := ih { head := next, len := (s.len + (USIZE - 1)) % USIZE }
        simp only at h
        simp only [pushedVals, poppedVals, runOps, hpop, hs]
        simp only [← Multiset.cons_coe, Multiset.cons_add, Multiset.add_cons] at h ⊢
        rw [h]

/-- Zero pops return nothing and leave the stack unchanged. -/
theorem popN_zero (s : Stack T) : s.popN 0 = ([], s) := rfl

/-- The head slot of a new stack is null. -/
theorem new_head : (Stack.new : Stack T).head = [] := rfl

/-- The counter of a new stack is zero. -/
theorem new_len : (Stack.new : Stack T).len = 0 := rfl

end Lemmas

section Claims

/-- C1: Sequential LIFO law — after pushing v1..vn on a stack from one
thread, the next n pops return some vn, some v(n-1), ..., some v1 in
that order. -/
theorem treiber_c1_sequential_lifo (T : Type) (s : Stack T) (vs : List T) :
    ((s.pushList vs).popN vs.length).1 = vs.reverse.map some := by
  have h1 := pushList_head s vs
  have h2 := popN_fst (s.pushList vs) vs.length (by rw [h1]; simp)
  rw [h2, h1, List.take_append_of_le_length (by simp)]
  simp

/-- C2: Conservation — over any sequential trace of pushes and pops
from a fresh stack, the multiset of pushed values equals the multiset
of popped values plus the multiset still in the stack; in particular
the popped values form a sub-multiset of the pushed ones, so each push
is retrieved by at most one pop and each pop returns a pushed value. -/
theorem treiber_c2_conservation (T : Type) (ops : List (Op T)) :
    (pushedVals ops : Multiset T) =
      (poppedVals Stack.new ops : Multiset T) + ((runOps Stack.new ops).head : Multiset T) ∧
    (poppedVals Stack.new ops : Multiset T) ≤ (pushedVals ops : Multiset T) := by
  have h := conservation Stack.new ops
  simp only [Stack.new, Multiset.coe_nil, add_zero] at h
  exact ⟨h, h ▸ Multiset.le_add_right _ _⟩

/-- C3: Empty-pop law — pop on a freshly constructed stack returns
none, and pop on a stack from which every pushed element has been
popped again returns none; absence is an ordinary value, not an
error. -/
theorem treiber_c3_empty_pop (T : Type) (vs : List T) :
    (Stack.new : Stack T).pop.1 = none ∧
    ((((Stack.new : Stack T).pushList vs).popN vs.length).2).pop.1 = none := by
  refine ⟨rfl, ?_⟩
  have hh : ((((Stack.new : Stack T).pushList vs).popN vs.length).2).head = [] := by
    rw [popN_snd_head, pushList_head]
    simp [Stack.new]
  rw [pop_head_nil _ hh]

/-- C4: Example scenario — from a new stack, push 1, push 2, push 3;
then len is 3, four successive pops return some 3, some 2, some 1,
none, and is_empty is then true. -/
theorem treiber_c4_example :
    ((((Stack.new : Stack Nat).push 1).push 2).push 3).len = 3 ∧
    (((((Stack.new : Stack Nat).push 1).push 2).push 3).popN 4).1 =
      [some 3, some 2, some 1, none] ∧
    ((((((Stack.new : Stack Nat).push 1).push 2).push 3).popN 4).2).is_empty = true := by
  decide

/-- C5 counterexample: the claim quantifies over every n, but the len
counter is a wrapping usize; with n = 2^64 pushes (of the value 0) and
m = 0 pops the counter reads 0, not n - m = 2^64. -/
theorem treiber_c5_counterexample :
    ¬ ((((Stack.new : Stack Nat).pushList (List.replicate USIZE 0)).popN 0).2.len
        = USIZE - 0) := by
  intro hcontra
  rw [popN_zero, pushList_len _ _ (by rw [new_len]; simp [USIZE]), new_len,
    List.length_replicate, Nat.zero_add, Nat.mod_self] at hcontra
  rw [Nat.sub_zero] at hcontra
  exact absurd hcontra.symm (by norm_num [USIZE])

/-- C5 amended: after n sequential pushes and m (with m at most n)
sequential pops on a fresh stack, len returns exactly n - m, provided
n - m fits in the usize counter (n - m < 2^64); beyond that bound the
counter has wrapped. -/
theorem treiber_c5_len_exact (T : Type) (vs : List T) (m : Nat)
    (hm : m ≤ vs.length) (hw : vs.length - m < USIZE) :
    (((Stack.new : Stack T).pushList vs).popN m).2.len = vs.length - m := by
  have hp : ((Stack.new : Stack T).pushList vs).len = vs.length % USIZE := by
    rw [pushList_len _ _ (by rw [new_len]; simp [USIZE]), new_len, Nat.zero_add]
  have hh : ((Stack.new : Stack T).pushList vs).head = vs.reverse := by
    rw [pushList_head, new_head, List.append_nil]
  have hm' : m ≤ ((Stack.new : Stack T).pushList vs).head.length := by
    rw [hh]; simpa using hm
  rw [popN_len _ m hm' (hp ▸ Nat.mod_lt _ (by simp [USIZE])), hp, Nat.mod_add_mod]
  have hsplit : vs.length + m * (USIZE - 1) = (vs.length - m) + m * USIZE := by
    have h2 : m * (USIZE - 1) = m * USIZE - m := by
      rw [Nat.mul_sub_one]
    have h3 : m ≤ m * USIZE := Nat.le_mul_of_pos_right m (by simp [USIZE])
    omega
  rw [hsplit, Nat.add_mul_mod_self_right, Nat.mod_eq_of_lt hw]

/-- C5 witness: the amended theorem at vs = [5, 6, 7], m = 2. -/
theorem treiber_c5_witness :
    2 ≤ 3 ∧ 3 - 2 < USIZE ∧
    (((Stack.new : Stack Nat).pushList [5, 6, 7]).popN 2).2.len = 3 - 2 :=
  ⟨by decide, by decide, treiber_c5_len_exact Nat [5, 6, 7] 2 (by decide) (by decide)⟩

/-- C6: is_empty consistency — for every stack state, is_empty
returns true exactly when an immediately following pop (with no
intervening push) returns none. -/
theorem treiber_c6_is_empty_iff_pop_none (T : Type) (s : Stack T) :
    s.is_empty = true ↔ s.pop.1 = none := by
  cases s with
  | mk hd l => cases hd <;> simp [Stack.is_empty, Stack.pop]

/-- C7: Constructor postcondition — new() returns a stack whose head
slot is null and whose counter is zero, on which is_empty is true and
len is 0. -/
theorem treiber_c7_new_postcondition (T : Type) :
    (Stack.new : Stack T).head = [] ∧ (Stack.new : Stack T).len = 0 ∧
    (Stack.new : Stack T).is_empty = true :=
  ⟨rfl, rfl, rfl⟩

/-- C8: peek is non-mutating — peek returns the stack state exactly as
it was, and its result is a duplicate of the top element when the
stack is non-empty (none when it is empty). -/
theorem treiber_c8_peek_frame (T : Type) (s : Stack T) :
    s.peek.2 = s ∧ s.peek.1 = s.head.head? :=
  ⟨rfl, rfl⟩

/-- C9: Failed pop changes nothing — pop on a stack whose head slot is
null returns none and leaves the head slot and the len counter exactly
as they were, so the counter is never decremented (and cannot
underflow) on the empty branch. -/
theorem treiber_c9_pop_empty_frame (T : Type) (s : Stack T) (h : s.head = []) :
    s.pop = (none, s) :=
  pop_head_nil s h

/-- C9 witness: the theorem at a fresh stack of naturals. -/
theorem treiber_c9_witness :
    (Stack.new : Stack Nat).head = [] ∧ (Stack.new : Stack Nat).pop = (none, Stack.new) :=
  ⟨rfl, treiber_c9_pop_empty_frame Nat Stack.new rfl⟩

/-- C10: Sequential termination — with no interference, the CAS in
push and in pop succeeds on the first iteration, so one unit of fuel
makes each retry loop return: the loops compute total functions equal
to the one-iteration unfoldings push and pop. -/
theorem treiber_c10_loops_terminate (T : Type) [DecidableEq T] (s : Stack T) (v : T) :
    s.pushLoop v 1 = some (s.push v) ∧ s.popLoop 1 = some s.pop := by
  constructor
  · simp [Stack.pushLoop, Stack.push]
  · cases hs : s.head with
    | nil => simp [Stack.popLoop, Stack.pop, hs, pop_head_nil s hs]
    | cons x next => simp [Stack.popLoop, Stack.pop, hs]

/-- C10 witness: the loop theorems at a fresh stack of naturals and
the value 0. -/
theorem treiber_c10_witness :
    (Stack.new : Stack Nat).pushLoop 0 1 = some (Stack.new.push 0) ∧
    (Stack.new : Stack Nat).popLoop 1 = some Stack.new.pop :=
  treiber_c10_loops_terminate Nat Stack.new 0

end Claims
